import Mathlib

/-!
Verification development for the clue-registry, configuration-resolver and
economy-ledger core of the PYTHIA / Ultimate Investigator bot.

The Python/SQL sources are shallowly embedded: each Prisma table is a Lean
list of records, each raw SQL query or Prisma call is a Lean function on
those lists, and the bot's in-memory guild set is a list of guild ids.
-/

/-! ## ASCII case folding

`ILIKE` and `UPPER` comparisons happen inside PostgreSQL; they are modelled
here as ASCII case folding, written with an explicit `Char.mk` so that the
numeric value of the result is transparent to proofs. -/

def asciiLower (c : Char) : Char :=
  if 65 ≤ c.toNat ∧ c.toNat ≤ 90 then
    Char.ofNat (c.toNat + 32)
  else c

def asciiUpper (c : Char) : Char :=
  if 97 ≤ c.toNat ∧ c.toNat ≤ 122 then
    Char.ofNat (c.toNat - 32)
  else c

def lowerList (s : List Char) : List Char := s.map asciiLower

theorem char_toNat_ofNat (n : Nat) (h : n.isValidChar) : (Char.ofNat n).toNat = n := by
  simp [Char.ofNat, h, Char.ofNatAux, Char.toNat, UInt32.toNat]

/-- Folding to lower case can only produce characters in the range 97-122;
any other output is the unchanged input. -/
theorem asciiLower_eq_or_range (c : Char) :
    asciiLower c = c ∨ (97 ≤ (asciiLower c).toNat ∧ (asciiLower c).toNat ≤ 122) := by
  unfold asciiLower
  split
  · right
    rename_i hc
    have hv : (c.toNat + 32).isValidChar := by
      left
      omega
    rw [char_toNat_ofNat _ hv]
    omega
  · left
    rfl

/-- If the target character is not a lower-case ASCII letter, folding a
character to it means the character already was it. -/
theorem asciiLower_special (c d : Char) (hd : d.toNat < 97 ∨ 122 < d.toNat)
    (h : asciiLower c = d) : c = d := by
  rcases asciiLower_eq_or_range c with he | hr
  · rw [he] at h
    exact h
  · rw [h] at hr
    omega

/-! ## SQL LIKE patterns

`likeMatch pat t` is the PostgreSQL `LIKE` matcher: `%` matches any run of
characters, `_` any single character, and a backslash escapes the next
pattern character.  `suffixes t` enumerates the suffixes of `t`, which is
how the `%` wildcard is resolved. -/

def suffixes : List Char → List (List Char)
  | [] => [[]]
  | c :: t => (c :: t) :: suffixes t

def likeMatch : List Char → List Char → Bool
  | [], t => t.isEmpty
  | c :: p, t =>
    if c = '\\' then
      match p, t with
      | c2 :: p2, d :: t2 => c2 = d && likeMatch p2 t2
      | _, _ => false
    else if c = '%' then
      (suffixes t).any (fun t2 => likeMatch p t2)
    else if c = '_' then
      match t with
      | [] => false
      | _ :: t2 => likeMatch p t2
    else
      match t with
      | [] => false
      | d :: t2 => c = d && likeMatch p t2

/-- Translation of `escape_ilike` (src/common/models.py:48) and of the SQL
`regexp_replace(attr, escaped-percent-underscore-class, backslash-group, g)`
emitted by `generate_regexp` (src/common/models.py:41): every `%` and `_`
receives a preceding backslash, all other characters (including an existing
backslash) pass through unchanged. -/
def escape_ilike : List Char → List Char
  | [] => []
  | c :: s => (if c = '%' ∨ c = '_' then ['\\', c] else [c]) ++ escape_ilike s

/-- Boolean "occurs as a contiguous substring" on character lists. -/
def stripPrefixL : List Char → List Char → Option (List Char)
  | [], t => some t
  | _ :: _, [] => none
  | c :: s, d :: t => if c = d then stripPrefixL s t else none

def containsSub (s t : List Char) : Bool :=
  (suffixes t).any (fun t2 => (stripPrefixL s t2).isSome)

/-- The needle `n` occurs in the haystack `h`, case-insensitively. -/
def OccursCI (n h : String) : Prop :=
  ∃ u v, lowerList h.data = u ++ lowerList n.data ++ v

/-! Unfolding equations for `likeMatch`, by pattern head. -/

theorem likeMatch_nil (t : List Char) : likeMatch [] t = t.isEmpty := rfl

theorem likeMatch_esc (c : Char) (q t : List Char) :
    likeMatch ('\\' :: c :: q) t =
      (match t with | [] => false | d :: t2 => (c = d : Bool) && likeMatch q t2) := by
  rw [likeMatch.eq_def]
  cases t <;> simp

theorem likeMatch_pct (q t : List Char) :
    likeMatch ('%' :: q) t = (suffixes t).any (fun t2 => likeMatch q t2) := by
  rw [likeMatch.eq_def]
  simp

theorem likeMatch_plain (c : Char) (q t : List Char) (h : ¬ c = '\\') (h2 : ¬ c = '%')
    (h3 : ¬ c = '_') :
    likeMatch (c :: q) t =
      (match t with | [] => false | d :: t2 => (c = d : Bool) && likeMatch q t2) := by
  rw [likeMatch.eq_def]
  simp [h, h2, h3]

/-- The empty suffix is always enumerated. -/
theorem nil_mem_suffixes (t : List Char) : [] ∈ suffixes t := by
  induction t with
  | nil => simp [suffixes]
  | cons c t ih => simp [suffixes, ih]

theorem mem_suffixes (u t : List Char) : u ∈ suffixes t ↔ ∃ v, v ++ u = t := by
  induction t with
  | nil =>
    constructor
    · intro hu
      simp only [suffixes, List.mem_singleton] at hu
      exact ⟨[], by simp [hu]⟩
    · rintro ⟨v, hv⟩
      have h2 := (List.append_eq_nil.mp hv).2
      simp [suffixes, h2]
  | cons c t ih =>
    simp only [suffixes, List.mem_cons, ih]
    constructor
    · rintro (rfl | ⟨v, rfl⟩)
      · exact ⟨[], rfl⟩
      · exact ⟨c :: v, rfl⟩
    · rintro ⟨v, hv⟩
      cases v with
      | nil =>
        left
        simpa using hv
      | cons a v =>
        right
        rw [List.cons_append] at hv
        obtain ⟨-, h2⟩ := List.cons_eq_cons.mp hv
        exact ⟨v, h2⟩

/-- A trailing lone `%` pattern matches everything. -/
theorem likeMatch_pct_nil (t : List Char) : likeMatch ['%'] t = true := by
  rw [likeMatch_pct]
  rw [List.any_eq_true]
  exact ⟨[], nil_mem_suffixes t, rfl⟩

theorem stripPrefixL_isSome (s t : List Char) :
    (stripPrefixL s t).isSome = true ↔ ∃ r, t = s ++ r := by
  induction s generalizing t with
  | nil => simp [stripPrefixL]
  | cons c s ih =>
    cases t with
    | nil =>
      simp [stripPrefixL]
    | cons d t =>
      by_cases hc : c = d
      · rw [show stripPrefixL (c :: s) (d :: t) = stripPrefixL s t from by simp [stripPrefixL, hc]]
        rw [ih]
        subst hc
        simp only [List.cons_append]
        constructor
        · rintro ⟨r, rfl⟩
          exact ⟨r, rfl⟩
        · rintro ⟨r, hr⟩
          obtain ⟨-, h2⟩ := List.cons_eq_cons.mp hr
          exact ⟨r, h2⟩
      · rw [show stripPrefixL (c :: s) (d :: t) = none from by simp [stripPrefixL, hc]]
        constructor
        · intro h
          simp at h
        · rintro ⟨r, hr⟩
          rw [List.cons_append] at hr
          obtain ⟨h1, -⟩ := List.cons_eq_cons.mp hr
          exact absurd h1.symm hc

/-! ## Escaped literals inside LIKE patterns

`EscLit q s` says that the pattern fragment `q` is an escaped spelling of the
literal character list `s`: every character of `s` appears either behind a
backslash escape or as a plain non-special character. -/

inductive EscLit : List Char → List Char → Prop
  | nil : EscLit [] []
  | esc (c : Char) (hc : ¬ c = '\\') {q s : List Char} (h : EscLit q s) :
      EscLit ('\\' :: c :: q) (c :: s)
  | plain (c : Char) (h1 : ¬ c = '\\') (h2 : ¬ c = '%') (h3 : ¬ c = '_')
      {q s : List Char} (h : EscLit q s) :
      EscLit (c :: q) (c :: s)

/-- An escaped literal fragment at the head of a pattern consumes exactly the
literal string it spells. -/
theorem likeMatch_escLit {q s : List Char} (he : EscLit q s) (p t : List Char) :
    likeMatch (q ++ p) t =
      (match stripPrefixL s t with
       | some t2 => likeMatch p t2
       | none => false) := by
  induction he generalizing t with
  | nil =>
    simp [stripPrefixL]
  | esc c hc h ih =>
    rename_i q1 s1
    rw [List.cons_append, List.cons_append, likeMatch_esc]
    cases t with
    | nil => simp [stripPrefixL]
    | cons d t2 =>
      by_cases hd : c = d
      · rw [show stripPrefixL (c :: s1) (d :: t2) = stripPrefixL s1 t2 from by
          simp [stripPrefixL, hd]]
        simp [hd, ih]
      · rw [show stripPrefixL (c :: s1) (d :: t2) = none from by simp [stripPrefixL, hd]]
        simp [hd]
  | plain c h1 h2 h3 h ih =>
    rename_i q1 s1
    rw [List.cons_append, likeMatch_plain c _ _ h1 h2 h3]
    cases t with
    | nil => simp [stripPrefixL]
    | cons d t2 =>
      by_cases hd : c = d
      · rw [show stripPrefixL (c :: s1) (d :: t2) = stripPrefixL s1 t2 from by
          simp [stripPrefixL, hd]]
        simp [hd, ih]
      · rw [show stripPrefixL (c :: s1) (d :: t2) = none from by simp [stripPrefixL, hd]]
        simp [hd]

/-- A pattern of the shape percent, escaped literal, percent is exactly a
substring test for the literal. -/
theorem likeMatch_wrap {q s : List Char} (he : EscLit q s) (t : List Char) :
    likeMatch ('%' :: (q ++ ['%'])) t = containsSub s t := by
  rw [likeMatch_pct, containsSub]
  congr 1
  funext t2
  rw [likeMatch_escLit he]
  cases hs : stripPrefixL s t2 with
  | none => simp
  | some r => simp [likeMatch_pct_nil]

theorem containsSub_iff (s t : List Char) :
    containsSub s t = true ↔ ∃ u v, t = u ++ s ++ v := by
  rw [containsSub, List.any_eq_true]
  constructor
  · rintro ⟨t2, ht2, hsome⟩
    obtain ⟨v, rfl⟩ := (mem_suffixes t2 t).mp ht2
    obtain ⟨r, rfl⟩ := (stripPrefixL_isSome s t2).mp hsome
    exact ⟨v, r, by simp⟩
  · rintro ⟨u, v, rfl⟩
    refine ⟨s ++ v, (mem_suffixes _ _).mpr ⟨u, by simp⟩, ?_⟩
    exact (stripPrefixL_isSome s (s ++ v)).mpr ⟨v, rfl⟩

/-- Lower-casing an escaped backslash-free string is the escaped spelling of
the lower-cased string. -/
theorem escLit_lower (w : List Char) (hw : '\\' ∉ w) :
    EscLit (lowerList (escape_ilike w)) (lowerList w) := by
  induction w with
  | nil => exact EscLit.nil
  | cons c w ih =>
    have hc : ¬ c = '\\' := by
      intro hcc
      exact hw (by simp [hcc])
    have hw2 : '\\' ∉ w := fun hm => hw (List.mem_cons_of_mem _ hm)
    by_cases hwild : c = '%' ∨ c = '_'
    · have hlow : asciiLower c = c := by
        rcases hwild with rfl | rfl <;> decide
      rw [show escape_ilike (c :: w) = '\\' :: c :: escape_ilike w from by
        simp [escape_ilike, hwild]]
      show EscLit (asciiLower '\\' :: asciiLower c :: lowerList (escape_ilike w))
        (asciiLower c :: lowerList w)
      rw [show asciiLower '\\' = '\\' from by decide, hlow]
      exact EscLit.esc c hc (ih hw2)
    · push_neg at hwild
      rw [show escape_ilike (c :: w) = c :: escape_ilike w from by
        simp [escape_ilike, hwild.1, hwild.2]]
      show EscLit (asciiLower c :: lowerList (escape_ilike w)) (asciiLower c :: lowerList w)
      refine EscLit.plain (asciiLower c) ?_ ?_ ?_ (ih hw2)
      · intro hx
        exact hc (asciiLower_special c '\\' (by left; decide) hx)
      · intro hx
        exact hwild.1 (asciiLower_special c '%' (by left; decide) hx)
      · intro hx
        exact hwild.2 (asciiLower_special c '_' (by left; decide) hx)

/-! ## Truth Bullets (clues)

Embedding of the `TruthBullet` model (src/common/models.py:59) and of the raw
SQL queries `FIND_TRUTH_BULLET_STR`, `VALIDATE_TRUTH_BULLET_STR` and
`FIND_TRUTH_BULLET_EXACT_STR` (src/common/models.py:352-408).  The table is a
list of rows; `query_first` is `List.find?` over that list. -/

structure TruthBullet where
  id : Nat
  channel_id : Nat
  trigger : String
  aliases : List String
  description : String
  hidden : Bool
  found : Bool
  finder : Option Nat
  deriving DecidableEq, Repr

/-- One `ILIKE` comparison of the find query: the message content is matched
against percent, escaped needle, percent; both sides are folded to lower
case by `ILIKE`. -/
def ilikeEscaped (needle content : String) : Bool :=
  likeMatch (lowerList ('%' :: (escape_ilike needle.data ++ ['%']))) (lowerList content.data)

/-- The WHERE clause of `FIND_TRUTH_BULLET_STR` for one row: same channel,
not yet found, and the content matches the trigger or some alias. -/
def findPred (channel : Nat) (content : String) (b : TruthBullet) : Bool :=
  b.channel_id == channel && b.found == false &&
    (ilikeEscaped b.trigger content || b.aliases.any (fun a => ilikeEscaped a content))

/-- `TruthBullet.find` (src/common/models.py:108): `query_first` with
`FIND_TRUTH_BULLET_STR`. -/
def TruthBullet.find (db : List TruthBullet) (channel : Nat) (content : String) :
    Option TruthBullet :=
  db.find? (findPred channel content)

/-- One `UPPER($2) = UPPER(x)` comparison of the exact/validate queries. -/
def upperEq (a b : String) : Bool :=
  a.data.map asciiUpper == b.data.map asciiUpper

/-- The WHERE clause shared by `FIND_TRUTH_BULLET_EXACT_STR` and
`VALIDATE_TRUTH_BULLET_STR`: same channel and the content is whole-string
case-insensitively equal to the trigger or to some alias; the found state is
not consulted. -/
def exactPred (channel : Nat) (content : String) (b : TruthBullet) : Bool :=
  b.channel_id == channel &&
    (upperEq content b.trigger || b.aliases.any (fun a => upperEq content a))

/-- `TruthBullet.find_exact` (src/common/models.py:116). -/
def TruthBullet.find_exact (db : List TruthBullet) (channel : Nat) (content : String) :
    Option TruthBullet :=
  db.find? (exactPred channel content)

/-- `TruthBullet.validate` (src/common/models.py:135): `SELECT 1 ... WHERE`
with the same predicate, reported as "some row exists". -/
def TruthBullet.validate (db : List TruthBullet) (channel : Nat) (content : String) : Bool :=
  db.any (exactPred channel content)

/-- Spec-side matcher: the content contains the trigger or an alias as a
case-insensitive substring, wildcards read literally. -/
def CiMatches (content : String) (b : TruthBullet) : Prop :=
  OccursCI b.trigger content ∨ ∃ a ∈ b.aliases, OccursCI a content

/-- A bullet whose trigger and aliases are free of the SQL escape character. -/
def noBackslash (b : TruthBullet) : Bool :=
  !b.trigger.data.contains '\\' && b.aliases.all (fun a => !a.data.contains '\\')

/-- For backslash-free needles the `ILIKE` test of the find query is exactly
the case-insensitive substring test. -/
theorem ilikeEscaped_eq_occurs (needle content : String)
    (h : ¬ needle.data.contains '\\' = true) :
    ilikeEscaped needle content = true ↔ OccursCI needle content := by
  have hmem : '\\' ∉ needle.data := by
    intro hm
    exact h (List.elem_eq_true_of_mem hm)
  rw [ilikeEscaped]
  rw [show lowerList ('%' :: (escape_ilike needle.data ++ ['%'])) =
      '%' :: (lowerList (escape_ilike needle.data) ++ ['%']) from by
    simp [lowerList]
    decide]
  rw [likeMatch_wrap (escLit_lower needle.data hmem)]
  rw [containsSub_iff]
  rfl

theorem findPred_true_elim (channel : Nat) (content : String) (b : TruthBullet)
    (h : findPred channel content b = true) :
    b.channel_id = channel ∧ b.found = false := by
  rw [findPred] at h
  simp only [Bool.and_eq_true, beq_iff_eq] at h
  exact ⟨h.1.1, by simpa using h.1.2⟩

/-- For a backslash-free bullet the SQL match of the find query coincides
with the case-insensitive substring condition. -/
theorem findPred_match_iff (channel : Nat) (content : String) (b : TruthBullet)
    (hb : noBackslash b = true) (hc : b.channel_id = channel) (hf : b.found = false) :
    findPred channel content b = true ↔ CiMatches content b := by
  rw [noBackslash, Bool.and_eq_true] at hb
  obtain ⟨ht, ha⟩ := hb
  rw [findPred, hc, hf]
  simp only [beq_self_eq_true, Bool.true_and, Bool.or_eq_true, List.any_eq_true]
  rw [CiMatches]
  constructor
  · rintro (h | ⟨a, hmem, h⟩)
    · left
      exact (ilikeEscaped_eq_occurs _ _ (by simpa using ht)).mp h
    · right
      refine ⟨a, hmem, ?_⟩
      have := (List.all_eq_true.mp ha) a hmem
      exact (ilikeEscaped_eq_occurs _ _ (by simpa using this)).mp h
  · rintro (h | ⟨a, hmem, h⟩)
    · left
      exact (ilikeEscaped_eq_occurs _ _ (by simpa using ht)).mpr h
    · right
      refine ⟨a, hmem, ?_⟩
      have := (List.all_eq_true.mp ha) a hmem
      exact (ilikeEscaped_eq_occurs _ _ (by simpa using this)).mpr h

/-- C1 (amended): over bullets whose triggers and aliases are free of the
SQL escape character, `find` returns only an unfound bullet of the channel
whose trigger or alias occurs case-insensitively in the content, and returns
none exactly when no unfound bullet of the channel matches.  The channel and
found conditions hold without the backslash restriction. -/
theorem C1_find_characterization (db : List TruthBullet) (channel : Nat) (content : String) :
    (∀ b, TruthBullet.find db channel content = some b →
      b ∈ db ∧ b.channel_id = channel ∧ b.found = false)
    ∧ (db.all noBackslash = true →
        ((∀ b, TruthBullet.find db channel content = some b → CiMatches content b)
         ∧ (TruthBullet.find db channel content = none ↔
             ∀ b ∈ db, b.channel_id = channel → b.found = false → ¬ CiMatches content b))) := by
  refine ⟨?_, ?_⟩
  · intro b hb
    have hmem := List.mem_of_find?_eq_some hb
    have hpred := List.find?_some hb
    obtain ⟨h1, h2⟩ := findPred_true_elim _ _ _ hpred
    exact ⟨hmem, h1, h2⟩
  · intro hall
    have hno : ∀ b ∈ db, noBackslash b = true := List.all_eq_true.mp hall
    refine ⟨?_, ?_⟩
    · intro b hb
      have hmem := List.mem_of_find?_eq_some hb
      have hpred := List.find?_some hb
      obtain ⟨h1, h2⟩ := findPred_true_elim _ _ _ hpred
      exact (findPred_match_iff channel content b (hno b hmem) h1 h2).mp hpred
    · rw [TruthBullet.find, List.find?_eq_none]
      constructor
      · intro h b hmem hc hf hm
        exact h b hmem ((findPred_match_iff channel content b (hno b hmem) hc hf).mpr hm)
      · intro h b hmem hpred
        obtain ⟨h1, h2⟩ := findPred_true_elim _ _ _ hpred
        exact h b hmem h1 h2
          ((findPred_match_iff channel content b (hno b hmem) h1 h2).mp hpred)

/-- A bullet whose trigger is a lone backslash. -/
def bsBullet : TruthBullet :=
  { id := 1, channel_id := 0, trigger := "\\", aliases := [], description := "",
    hidden := false, found := false, finder := none }

/-- C1 (counterexample): the find query returns `bsBullet` for the content
percent sign, although its trigger, a lone backslash, does not occur in that
content at all - the escaping leaves a backslash able to re-purpose the
following pattern character. -/
theorem C1_counterexample :
    TruthBullet.find [bsBullet] 0 "%" = some bsBullet ∧ ¬ CiMatches "%" bsBullet := by
  constructor
  · rfl
  · rintro (⟨u, v, h⟩ | ⟨a, ha, -⟩)
    · have : containsSub (lowerList "\\".data) (lowerList "%".data) = true :=
        (containsSub_iff _ _).mpr ⟨u, v, h⟩
      simp [containsSub, lowerList, suffixes, stripPrefixL] at this
      revert this
      decide
    · simp [bsBullet] at ha

/-- A concrete backslash-free bullet used by the C1 witness. -/
def c1Bullet : TruthBullet :=
  { id := 1, channel_id := 5, trigger := "No.1", aliases := ["clue"],
    description := "d", hidden := false, found := false, finder := none }

/-- C1 (witness): the amended characterization evaluated on a concrete
backslash-free database. -/
theorem C1_witness :
    ([c1Bullet].all noBackslash = true)
    ∧ ((∀ b, TruthBullet.find [c1Bullet] 5 "say NO.1 loud" = some b →
          CiMatches "say NO.1 loud" b)
       ∧ (TruthBullet.find [c1Bullet] 5 "say NO.1 loud" = none ↔
           ∀ b ∈ [c1Bullet], b.channel_id = 5 → b.found = false →
             ¬ CiMatches "say NO.1 loud" b)) :=
  ⟨by decide, (C1_find_characterization [c1Bullet] 5 "say NO.1 loud").2 (by decide)⟩

/-! ## The escape function as such (claim C6) -/

/-- Structural description of the output of `escape_ilike`: every wildcard
character of the input appears behind a freshly inserted backslash, every
other character (backslashes included) passes through unchanged. -/
inductive Escaped : List Char → List Char → Prop
  | nil : Escaped [] []
  | wild (c : Char) (h : c = '%' ∨ c = '_') {q s : List Char} (hq : Escaped q s) :
      Escaped ('\\' :: c :: q) (c :: s)
  | plain (c : Char) (h : ¬ (c = '%' ∨ c = '_')) {q s : List Char} (hq : Escaped q s) :
      Escaped (c :: q) (c :: s)

theorem escaped_escape_ilike (s : List Char) : Escaped (escape_ilike s) s := by
  induction s with
  | nil => exact Escaped.nil
  | cons c s ih =>
    by_cases hw : c = '%' ∨ c = '_'
    · rw [show escape_ilike (c :: s) = '\\' :: c :: escape_ilike s from by
        simp [escape_ilike, hw]]
      exact Escaped.wild c hw ih
    · rw [show escape_ilike (c :: s) = c :: escape_ilike s from by
        simp [escape_ilike, hw]]
      exact Escaped.plain c hw ih

theorem escLit_escape_ilike (s : List Char) (hs : '\\' ∉ s) :
    EscLit (escape_ilike s) s := by
  induction s with
  | nil => exact EscLit.nil
  | cons c s ih =>
    have hc : ¬ c = '\\' := fun hcc => hs (by simp [hcc])
    have hs2 : '\\' ∉ s := fun hm => hs (List.mem_cons_of_mem _ hm)
    by_cases hw : c = '%' ∨ c = '_'
    · rw [show escape_ilike (c :: s) = '\\' :: c :: escape_ilike s from by
        simp [escape_ilike, hw]]
      exact EscLit.esc c hc (ih hs2)
    · push_neg at hw
      rw [show escape_ilike (c :: s) = c :: escape_ilike s from by
        simp [escape_ilike, hw.1, hw.2]]
      exact EscLit.plain c hc hw.1 hw.2 (ih hs2)

theorem stripPrefixL_eq_some (s t r : List Char) :
    stripPrefixL s t = some r ↔ t = s ++ r := by
  induction s generalizing t with
  | nil =>
    simp [stripPrefixL, eq_comm]
  | cons c s ih =>
    cases t with
    | nil => simp [stripPrefixL]
    | cons d t =>
      by_cases hc : c = d
      · rw [show stripPrefixL (c :: s) (d :: t) = stripPrefixL s t from by
          simp [stripPrefixL, hc]]
        rw [ih]
        subst hc
        simp only [List.cons_append]
        constructor
        · rintro rfl
          rfl
        · intro hr
          exact (List.cons_eq_cons.mp hr).2
      · rw [show stripPrefixL (c :: s) (d :: t) = none from by simp [stripPrefixL, hc]]
        constructor
        · intro h
          simp at h
        · intro hr
          rw [List.cons_append] at hr
          exact absurd (List.cons_eq_cons.mp hr).1.symm hc

/-- C6 (amended): `escape_ilike` prefixes every wildcard with a backslash
and passes all other characters through unchanged (it is a pure total
function); for inputs containing no backslash the escaped string, used as a
LIKE pattern, matches exactly the literal input - a literal percent sign
matches only itself.  (For inputs that do contain a backslash the pattern
may still behave as a wildcard, see the counterexample.) -/
theorem C6_escape_spec (s t : List Char) :
    Escaped (escape_ilike s) s
    ∧ ('\\' ∉ s → (likeMatch (escape_ilike s) t = true ↔ t = s)) := by
  refine ⟨escaped_escape_ilike s, fun hs => ?_⟩
  have he := escLit_escape_ilike s hs
  have h := likeMatch_escLit he [] t
  rw [List.append_nil] at h
  rw [h]
  cases hst : stripPrefixL s t with
  | none =>
    simp only [Bool.false_eq_true, false_iff]
    intro hts
    rw [(stripPrefixL_eq_some s t []).mpr (by simp [hts])] at hst
    exact Option.noConfusion hst
  | some r =>
    have := (stripPrefixL_eq_some s t r).mp hst
    subst this
    simp only [likeMatch_nil, List.isEmpty_iff]
    constructor
    · rintro rfl
      simp
    · intro hr
      have : s ++ r = s ++ [] := by simpa using hr
      exact List.append_cancel_left this

/-- C6 (counterexample): the trigger backslash-percent contains a literal
percent sign, yet after escaping it matches the content backslash-a-b, in
which neither the percent sign nor the full trigger occurs: the percent
behaves as a wildcard because the preceding literal backslash of the trigger
re-associates with the inserted escape. -/
theorem C6_counterexample :
    ('%' ∈ "\\%".data) ∧ ilikeEscaped "\\%" "\\ab" = true ∧ ¬ OccursCI "\\%" "\\ab" := by
  refine ⟨by decide, by decide, ?_⟩
  rintro ⟨u, v, h⟩
  have : containsSub (lowerList "\\%".data) (lowerList "\\ab".data) = true :=
    (containsSub_iff _ _).mpr ⟨u, v, h⟩
  revert this
  decide

/-- C6 (witness): on the backslash-free input a-percent-b the escaped
pattern matches exactly that input. -/
theorem C6_witness :
    ('\\' ∉ "a%b".data)
    ∧ (likeMatch (escape_ilike "a%b".data) "a%b".data = true ↔ "a%b".data = "a%b".data) :=
  ⟨by decide, ((C6_escape_spec "a%b".data "a%b".data).2 (by decide))⟩

/-! ## Exact lookup versus validation (claim C7) -/

theorem exactPred_map (f : TruthBullet → TruthBullet)
    (hf : ∀ b, (f b).channel_id = b.channel_id ∧ (f b).trigger = b.trigger ∧
      (f b).aliases = b.aliases) (channel : Nat) (content : String) (b : TruthBullet) :
    exactPred channel content (f b) = exactPred channel content b := by
  obtain ⟨h1, h2, h3⟩ := hf b
  rw [exactPred, exactPred, h1, h2, h3]

theorem find?_map_of_pred (f : TruthBullet → TruthBullet) (p : TruthBullet → Bool)
    (hp : ∀ b, p (f b) = p b) (db : List TruthBullet) :
    (db.map f).find? p = (db.find? p).map f := by
  induction db with
  | nil => rfl
  | cons a l ih =>
    rw [List.map_cons]
    cases h : p a with
    | true =>
      rw [List.find?_cons_of_pos _ h, List.find?_cons_of_pos _ (by rw [hp a, h])]
      rfl
    | false =>
      rw [List.find?_cons_of_neg _ (by rw [hp a, h]; simp),
        List.find?_cons_of_neg _ (by rw [h]; simp)]
      exact ih

/-- C7: `validate` answers exactly "does `find_exact` return a row", both
use the same whole-string case-insensitive matching rule, and neither
consults the found or finder state - rewriting those fields arbitrarily
changes neither answer. -/
theorem C7_validate_find_exact (db : List TruthBullet) (channel : Nat) (content : String)
    (f : TruthBullet → TruthBullet)
    (hf : ∀ b, (f b).channel_id = b.channel_id ∧ (f b).trigger = b.trigger ∧
      (f b).aliases = b.aliases) :
    TruthBullet.validate db channel content =
      (TruthBullet.find_exact db channel content).isSome
    ∧ TruthBullet.find_exact (db.map f) channel content =
        (TruthBullet.find_exact db channel content).map f
    ∧ TruthBullet.validate (db.map f) channel content =
        TruthBullet.validate db channel content := by
  refine ⟨?_, ?_, ?_⟩
  · rw [TruthBullet.validate, TruthBullet.find_exact]
    induction db with
    | nil => rfl
    | cons a l ih =>
      cases h : exactPred channel content a with
      | true => simp [h, List.find?_cons_of_pos _ h]
      | false =>
        rw [List.any_cons, h, List.find?_cons_of_neg _ (by simp [h])]
        simpa using ih
  · exact find?_map_of_pred f _ (exactPred_map f hf channel content) db
  · rw [TruthBullet.validate, TruthBullet.validate, List.any_map]
    congr 1
    funext b
    exact exactPred_map f hf channel content b

/-- Rewrites the discovery state of a bullet, leaving the matching fields
alone; used to witness that the exact lookup ignores the found state. -/
def unfindB (x : TruthBullet) : TruthBullet :=
  { x with found := false, finder := none }

/-- A concrete already-found bullet used by the C7 witness. -/
def c7Bullet : TruthBullet :=
  { id := 2, channel_id := 3, trigger := "Knife", aliases := ["blade"],
    description := "d", hidden := false, found := true, finder := some 42 }

/-- C7 (witness): evaluated on a one-row table holding a found bullet, with
a field rewrite that flips the found state and erases the finder. -/
theorem C7_witness :
    (∀ b, (unfindB b).channel_id = b.channel_id
      ∧ (unfindB b).trigger = b.trigger
      ∧ (unfindB b).aliases = b.aliases)
    ∧ (TruthBullet.validate [c7Bullet] 3 "KNIFE" =
        (TruthBullet.find_exact [c7Bullet] 3 "KNIFE").isSome
       ∧ TruthBullet.find_exact ([c7Bullet].map unfindB) 3 "KNIFE" =
           (TruthBullet.find_exact [c7Bullet] 3 "KNIFE").map unfindB
       ∧ TruthBullet.validate ([c7Bullet].map unfindB) 3 "KNIFE" =
           TruthBullet.validate [c7Bullet] 3 "KNIFE") :=
  ⟨fun _ => ⟨rfl, rfl, rfl⟩,
   C7_validate_find_exact [c7Bullet] 3 "KNIFE" unfindB (fun _ => ⟨rfl, rfl, rfl⟩)⟩

/-! ## Discovery commits (claim C5) -/

/-- Modelled from the spec: `commit_discovery` - the message-listener
extension that marks a clue as found is not among the sources here, only the
`TruthBullet` model is.  Spec 4.2/8: the commit sets `found := true` and
`finder := finder_id` and persists; a subsequent commit on an already-found
clue is a no-op that does not overwrite the original finder (the
conditional-update strengthening the spec itself requires in section 5). -/
def commit_discovery (db : List TruthBullet) (i : Nat) (u : Nat) : List TruthBullet :=
  db.map (fun b =>
    if b.id == i && !b.found then { b with found := true, finder := some u } else b)

/-- The clue-registry operations that can touch discovery state: a discovery
commit, or the administrative creation of a fresh clue (created unfound and
finderless, per the spec's Clue lifecycle). -/
inductive ClueOp where
  | commit (i : Nat) (u : Nat)
  | create (i : Nat) (channel : Nat) (trigger : String) (aliases : List String)
      (descr : String) (hidden : Bool)

def applyClueOp (db : List TruthBullet) : ClueOp → List TruthBullet
  | .commit i u => commit_discovery db i u
  | .create i channel trigger aliases descr hidden =>
      { id := i, channel_id := channel, trigger := trigger, aliases := aliases,
        description := descr, hidden := hidden, found := false, finder := none } :: db

def applyClueOps (db : List TruthBullet) (ops : List ClueOp) : List TruthBullet :=
  ops.foldl applyClueOp db

/-- Invariant of claim C5: a clue carries a finder exactly when it is found. -/
def ClueInv (db : List TruthBullet) : Prop :=
  ∀ b ∈ db, b.finder.isSome = b.found

theorem clueInv_step (db : List TruthBullet) (op : ClueOp) (h : ClueInv db) :
    ClueInv (applyClueOp db op) := by
  cases op with
  | commit i u =>
    intro b hb
    rw [applyClueOp, commit_discovery] at hb
    obtain ⟨a, ha, rfl⟩ := List.mem_map.mp hb
    by_cases hc : (a.id == i && !a.found) = true
    · rw [if_pos hc]
      rfl
    · rw [if_neg hc]
      exact h a ha
  | create i channel trigger aliases descr hidden =>
    intro b hb
    rcases List.mem_cons.mp hb with rfl | hmem
    · rfl
    · exact h b hmem

/-- A found clue survives any single operation untouched. -/
theorem found_step (db : List TruthBullet) (op : ClueOp) (b : TruthBullet)
    (hb : b ∈ db) (hf : b.found = true) : b ∈ applyClueOp db op := by
  cases op with
  | commit i u =>
    rw [applyClueOp, commit_discovery]
    have : (if b.id == i && !b.found then
        { b with found := true, finder := some u } else b) = b := by
      rw [hf]
      simp
    exact this ▸ List.mem_map_of_mem _ hb
  | create i channel trigger aliases descr hidden =>
    exact List.mem_cons_of_mem _ hb

/-- C5: starting from any state where finder-presence coincides with the
found flag, every sequence of registry operations preserves that
equivalence; a clue once found keeps both its found flag and its original
finder through every further operation; and a discovery commit on an
unfound clue of the targeted id records exactly the committing user as
finder with `found := true`. -/
theorem C5_finder_invariant (db : List TruthBullet) (h : ClueInv db) (ops : List ClueOp)
    (i u : Nat) :
    ClueInv (applyClueOps db ops)
    ∧ (∀ b ∈ db, b.found = true →
        b ∈ applyClueOps db ops)
    ∧ (∀ b ∈ db, b.id = i → b.found = false →
        ({ b with found := true, finder := some u } : TruthBullet) ∈ commit_discovery db i u) := by
  refine ⟨?_, ?_, ?_⟩
  · clear i u
    induction ops generalizing db with
    | nil => exact h
    | cons op rest ih => exact ih _ (clueInv_step db op h)
  · clear i u
    induction ops generalizing db with
    | nil =>
      intro b hb _
      exact hb
    | cons op rest ih =>
      intro b hb hf
      exact ih _ (clueInv_step db op h) b (found_step db op b hb hf) hf
  · intro b hb hid hf
    rw [commit_discovery]
    have hcond : (b.id == i && !b.found) = true := by
      rw [hid, hf]
      simp
    have : (if b.id == i && !b.found then
        { b with found := true, finder := some u } else b) =
        { b with found := true, finder := some u } := if_pos hcond
    exact this ▸ List.mem_map_of_mem _ hb

/-- C5 (witness): a two-clue state, one clue already found; the invariant is
preserved across a commit on each clue and a fresh creation. -/
theorem C5_witness :
    (ClueInv [c1Bullet, c7Bullet])
    ∧ (ClueInv (applyClueOps [c1Bullet, c7Bullet]
        [ClueOp.commit 1 7, ClueOp.commit 2 9, ClueOp.create 3 0 "t" [] "d" false])
      ∧ (∀ b ∈ [c1Bullet, c7Bullet], b.found = true →
          b ∈ applyClueOps [c1Bullet, c7Bullet]
            [ClueOp.commit 1 7, ClueOp.commit 2 9, ClueOp.create 3 0 "t" [] "d" false])
      ∧ (∀ b ∈ [c1Bullet, c7Bullet], b.id = 1 → b.found = false →
          ({ b with found := true, finder := some 7 } : TruthBullet) ∈
            commit_discovery [c1Bullet, c7Bullet] 1 7)) :=
  ⟨by unfold ClueInv; decide,
   C5_finder_invariant [c1Bullet, c7Bullet] (by unfold ClueInv; decide)
     [ClueOp.commit 1 7, ClueOp.commit 2 9, ClueOp.create 3 0 "t" [] "d" false] 1 7⟩

/-! ## Guild configuration resolver (claims C2, C10)

Embedding of `GuildConfigMixin` (src/common/models.py:270) with its three
lazily created sub-config tables.  Field defaults for the created rows are
not visible in the sources (the Prisma schema is generated); for the fields
the commands read they are modelled as the disabled/empty defaults the spec
describes (`bullets_enabled` off, default investigation mode, nothing set). -/

inductive InvestigationType where
  | DEFAULT
  | COMMAND_ONLY
  deriving DecidableEq, Repr

structure GuildConfigRow where
  guild_id : Nat
  player_role : Option Nat
  deriving DecidableEq, Repr

structure NamesRow where
  guild_id : Nat
  deriving DecidableEq, Repr

structure BulletConfigRow where
  guild_id : Nat
  bullets_enabled : Bool
  investigation_type : InvestigationType
  bullet_chan_id : Option Nat
  best_bullet_finder_role : Option Nat
  deriving DecidableEq, Repr

structure GachaConfigRow where
  guild_id : Nat
  currency_cost : Int
  deriving DecidableEq, Repr

def defaultBulletRow (g : Nat) : BulletConfigRow :=
  { guild_id := g, bullets_enabled := false, investigation_type := .DEFAULT,
    bullet_chan_id := none, best_bullet_finder_role := none }

structure ConfigDB where
  roots : List GuildConfigRow
  names : List NamesRow
  bullets : List BulletConfigRow
  gacha : List GachaConfigRow
  deriving DecidableEq, Repr

/-- The `include` dictionary passed to the config getters. -/
structure IncludeSpec where
  names : Bool
  bullets : Bool
  gacha : Bool
  deriving DecidableEq, Repr

/-- The hydrated model object a config query returns: the root row plus the
requested (and present) sub-config rows. -/
structure GuildConfigAgg where
  root : GuildConfigRow
  names : Option NamesRow
  bullets : Option BulletConfigRow
  gacha : Option GachaConfigRow
  deriving DecidableEq, Repr

def findRoot (db : ConfigDB) (g : Nat) : Option GuildConfigRow :=
  db.roots.find? (fun r => r.guild_id == g)

def findNames (db : ConfigDB) (g : Nat) : Option NamesRow :=
  db.names.find? (fun r => r.guild_id == g)

def findBullets (db : ConfigDB) (g : Nat) : Option BulletConfigRow :=
  db.bullets.find? (fun r => r.guild_id == g)

def findGacha (db : ConfigDB) (g : Nat) : Option GachaConfigRow :=
  db.gacha.find? (fun r => r.guild_id == g)

/-- `find_unique(where, include)`: the fetched aggregate carries a requested
relation only when its row exists. -/
def fetchAgg (db : ConfigDB) (inc : IncludeSpec) (root : GuildConfigRow) : GuildConfigAgg :=
  { root := root,
    names := if inc.names then findNames db root.guild_id else none,
    bullets := if inc.bullets then findBullets db root.guild_id else none,
    gacha := if inc.gacha then findGacha db root.guild_id else none }

/-- `GuildConfigMixin._fill_in_include` (src/common/models.py:281): for every
requested sub-config missing on the fetched model a default row is created
in storage through one nested update; the method then returns `self` - the
originally fetched model (src/common/models.py:308), not the refreshed row
the update produced. -/
def fillInInclude (db : ConfigDB) (agg : GuildConfigAgg) (inc : IncludeSpec) :
    ConfigDB × GuildConfigAgg :=
  if inc = ⟨false, false, false⟩ then (db, agg)
  else
    let g := agg.root.guild_id
    let db1 := if inc.names ∧ agg.names.isNone then
        { db with names := ⟨g⟩ :: db.names } else db
    let db2 := if inc.bullets ∧ agg.bullets.isNone then
        { db1 with bullets := defaultBulletRow g :: db1.bullets } else db1
    let db3 := if inc.gacha ∧ agg.gacha.isNone then
        { db2 with gacha := ⟨g, 1⟩ :: db2.gacha } else db2
    (db3, agg)

/-- `GuildConfigMixin.get` (src/common/models.py:310): `none` models the
raise of `find_unique_or_raise` when the root record is absent. -/
def GuildConfig.get (db : ConfigDB) (g : Nat) (inc : IncludeSpec) :
    Option (ConfigDB × GuildConfigAgg) :=
  match findRoot db g with
  | none => none
  | some root => some (fillInInclude db (fetchAgg db inc root) inc)

/-- `GuildConfigMixin.get_or_create` (src/common/models.py:333): creates the
root row when absent (relations unloaded on the freshly created model),
then fills in the requested sub-configs. -/
def GuildConfig.get_or_create (db : ConfigDB) (g : Nat) (inc : IncludeSpec) :
    ConfigDB × GuildConfigAgg :=
  match findRoot db g with
  | some root => fillInInclude db (fetchAgg db inc root) inc
  | none =>
    let root : GuildConfigRow := { guild_id := g, player_role := none }
    let db1 := { db with roots := root :: db.roots }
    fillInInclude db1 { root := root, names := none, bullets := none, gacha := none } inc

/-- C2: evaluation at the failing input.  Guild 1 has a root configuration
and no BulletConfig row; `get` with `include = bullets` creates the missing
BulletConfig row in storage, yet the aggregate it returns still carries
`bullets = none`, because `_fill_in_include` returns `self` instead of the
refreshed record - contradicting the claim that every requested sub-config
is non-null on the returned aggregate.  `get_or_create` diverges likewise. -/
theorem C2_fill_in_include_bug :
    GuildConfig.get ⟨[⟨1, none⟩], [], [], []⟩ 1 ⟨false, true, false⟩ =
      some (⟨[⟨1, none⟩], [], [defaultBulletRow 1], []⟩,
        { root := ⟨1, none⟩, names := none, bullets := none, gacha := none })
    ∧ (GuildConfig.get_or_create ⟨[⟨1, none⟩], [], [], []⟩ 1 ⟨false, true, false⟩).2.bullets
        = none
    ∧ (GuildConfig.get_or_create ⟨[], [], [], []⟩ 1 ⟨false, true, false⟩).2.bullets
        = none := by
  refine ⟨by decide, by decide, by decide⟩

/-! ## Economy ledger (claims C3, C4, C8, C9)

Embedding of the `GachaPlayer` balance table keyed by the composite string
`"{guild_id}-{user_id}"` and of the Prisma calls issued by the
`gacha-management` commands (src/exts/gacha_management.py). -/

structure GachaPlayer where
  user_guild_id : String
  currency_amount : Int
  deriving DecidableEq, Repr

def mkUserGuildId (guild user : Nat) : String :=
  toString guild ++ "-" ++ toString user

def getBalance (db : List GachaPlayer) (guild user : Nat) : Option Int :=
  (db.find? (fun p => p.user_guild_id == mkUserGuildId guild user)).map
    (fun p => p.currency_amount)

/-- `GachaManagement.gacha_give` (src/exts/gacha_management.py:130): upsert
creating the row with `currency_amount = amount`, otherwise incrementing by
`amount`; returns the row's new amount. -/
def gacha_give (db : List GachaPlayer) (guild user : Nat) (amount : Int) :
    List GachaPlayer × Int :=
  let key := mkUserGuildId guild user
  match db.find? (fun p => p.user_guild_id == key) with
  | some p =>
    let p2 : GachaPlayer := { p with currency_amount := p.currency_amount + amount }
    (db.map (fun q => if q.user_guild_id == key then p2 else q), p2.currency_amount)
  | none => (⟨key, amount⟩ :: db, amount)

/-- `GachaManagement.gacha_remove` (src/exts/gacha_management.py:176): upsert
whose update branch decrements by `amount` but whose create branch, exactly
as in `gacha_give`, sets `currency_amount = amount`. -/
def gacha_remove (db : List GachaPlayer) (guild user : Nat) (amount : Int) :
    List GachaPlayer × Int :=
  let key := mkUserGuildId guild user
  match db.find? (fun p => p.user_guild_id == key) with
  | some p =>
    let p2 : GachaPlayer := { p with currency_amount := p.currency_amount - amount }
    (db.map (fun q => if q.user_guild_id == key then p2 else q), p2.currency_amount)
  | none => (⟨key, amount⟩ :: db, amount)

/-- `GachaManagement.gacha_reset_currency` (src/exts/gacha_management.py:221):
`update_many` setting `currency_amount` to 0 on the user's row where the
amount is strictly positive; returns the number of affected rows (the
command surfaces 0 as the recoverable "no currency to reset" failure). -/
def gacha_reset_currency (db : List GachaPlayer) (guild user : Nat) :
    List GachaPlayer × Nat :=
  let key := mkUserGuildId guild user
  (db.map (fun p => if p.user_guild_id == key && 0 < p.currency_amount then
      { p with currency_amount := 0 } else p),
   (db.filter (fun p => p.user_guild_id == key && 0 < p.currency_amount)).length)

/-- C3: evaluation at the failing input.  Debiting 10 from an absent balance
creates the row with `currency_amount = 10` (the create branch reuses the
positive amount), so the reported new balance is 10 where the claim requires
0 - 10 = -10.  On an existing row the decrement itself is as claimed. -/
theorem C3_debit_create_bug :
    gacha_remove [] 1 2 10 = ([⟨"1-2", 10⟩], 10)
    ∧ ((10 : Int) ≠ 0 - 10)
    ∧ (gacha_remove [⟨"1-2", 7⟩] 1 2 10).2 = 7 - 10 := by
  refine ⟨by decide, by decide, by decide⟩

/-- C4: granting onto an absent balance creates the row holding exactly the
amount, and the subsequent debit of the same amount brings the balance to 0. -/
theorem C4_round_trip (db : List GachaPlayer) (guild user : Nat) (amount : Int)
    (h : db.find? (fun p => p.user_guild_id == mkUserGuildId guild user) = none) :
    (gacha_give db guild user amount).2 = amount
    ∧ getBalance (gacha_give db guild user amount).1 guild user = some amount
    ∧ (gacha_remove (gacha_give db guild user amount).1 guild user amount).2 = 0
    ∧ getBalance (gacha_remove (gacha_give db guild user amount).1 guild user amount).1
        guild user = some 0 := by
  have hgive : gacha_give db guild user amount =
      (⟨mkUserGuildId guild user, amount⟩ :: db, amount) := by
    rw [gacha_give]
    rw [h]
  rw [hgive]
  have hfind : ∀ r : List GachaPlayer,
      List.find? (fun p => p.user_guild_id == mkUserGuildId guild user)
        (⟨mkUserGuildId guild user, amount⟩ :: r) =
        some ⟨mkUserGuildId guild user, amount⟩ :=
    fun r => List.find?_cons_of_pos _ (by simp)
  have hremove : gacha_remove (⟨mkUserGuildId guild user, amount⟩ :: db) guild user amount =
      ((⟨mkUserGuildId guild user, amount⟩ :: db).map
        (fun q => if q.user_guild_id == mkUserGuildId guild user then
          ⟨mkUserGuildId guild user, amount - amount⟩ else q), amount - amount) := by
    rw [gacha_remove]
    rw [hfind db]
  refine ⟨rfl, ?_, ?_, ?_⟩
  · rw [getBalance, hfind db]
    rfl
  · rw [hremove]
    simp
  · rw [hremove]
    rw [getBalance]
    rw [List.map_cons]
    rw [show (if (⟨mkUserGuildId guild user, amount⟩ : GachaPlayer).user_guild_id ==
        mkUserGuildId guild user then
        (⟨mkUserGuildId guild user, amount - amount⟩ : GachaPlayer) else
        ⟨mkUserGuildId guild user, amount⟩) =
        ⟨mkUserGuildId guild user, amount - amount⟩ from by simp]
    rw [List.find?_cons_of_pos _ (by simp)]
    simp

/-- C4 (witness): the round trip evaluated at guild 4, user 9, amount 10 on
an empty balance table. -/
theorem C4_witness :
    ([].find? (fun p => p.user_guild_id == mkUserGuildId 4 9) = (none : Option GachaPlayer))
    ∧ ((gacha_give [] 4 9 10).2 = 10
       ∧ getBalance (gacha_give [] 4 9 10).1 4 9 = some 10
       ∧ (gacha_remove (gacha_give [] 4 9 10).1 4 9 10).2 = 0
       ∧ getBalance (gacha_remove (gacha_give [] 4 9 10).1 4 9 10).1 4 9 = some 0) :=
  ⟨rfl, C4_round_trip [] 4 9 10 rfl⟩

/-- C8: the reset affects a row exactly when the user's balance is strictly
positive - an absent row or a non-positive balance reports zero affected
rows - and the stored balance becomes 0 exactly in the positive case,
staying untouched otherwise. -/
theorem C8_reset_if_positive (db : List GachaPlayer) (guild user : Nat) :
    ((gacha_reset_currency db guild user).2 = 0 ↔
      ∀ p ∈ db, p.user_guild_id = mkUserGuildId guild user → p.currency_amount ≤ 0)
    ∧ getBalance (gacha_reset_currency db guild user).1 guild user =
        (getBalance db guild user).map (fun v => if 0 < v then 0 else v) := by
  constructor
  · rw [gacha_reset_currency]
    rw [List.length_eq_zero]
    rw [List.filter_eq_nil_iff]
    constructor
    · intro h p hp hk
      have := h p hp
      simp only [Bool.and_eq_true, beq_iff_eq, decide_eq_true_eq, not_and] at this
      exact le_of_not_lt (this hk)
    · intro h p hp
      simp only [Bool.and_eq_true, beq_iff_eq, decide_eq_true_eq, not_and]
      intro hk
      exact not_lt_of_le (h p hp hk)
  · induction db with
    | nil => rfl
    | cons a l ih =>
      by_cases hk : a.user_guild_id = mkUserGuildId guild user
      · by_cases hpos : 0 < a.currency_amount
        · simp [gacha_reset_currency, getBalance, hk, hpos]
        · simp [gacha_reset_currency, getBalance, hk, hpos]
      · simp only [gacha_reset_currency, getBalance] at ih ⊢
        rw [List.map_cons]
        rw [show (if a.user_guild_id == mkUserGuildId guild user
              && decide (0 < a.currency_amount) then
            ({ a with currency_amount := 0 } : GachaPlayer) else a) = a from by simp [hk]]
        rw [List.find?_cons_of_neg _ (by simp [hk]), List.find?_cons_of_neg _ (by simp [hk])]
        exact ih

/-- C8 (witness): evaluated on a table holding a positive, a zero and a
negative balance. -/
theorem C8_witness :
    (((gacha_reset_currency [⟨"1-2", 5⟩] 1 2).2 = 0 ↔
       ∀ p ∈ [(⟨"1-2", 5⟩ : GachaPlayer)], p.user_guild_id = mkUserGuildId 1 2 →
         p.currency_amount ≤ 0)
     ∧ getBalance (gacha_reset_currency [⟨"1-2", 5⟩] 1 2).1 1 2 =
         (getBalance [⟨"1-2", 5⟩] 1 2).map (fun v => if 0 < v then 0 else v))
    ∧ (((gacha_reset_currency [⟨"1-2", 0⟩] 1 2).2 = 0 ↔
        ∀ p ∈ [(⟨"1-2", 0⟩ : GachaPlayer)], p.user_guild_id = mkUserGuildId 1 2 →
          p.currency_amount ≤ 0)
       ∧ getBalance (gacha_reset_currency [⟨"1-2", 0⟩] 1 2).1 1 2 =
           (getBalance [⟨"1-2", 0⟩] 1 2).map (fun v => if 0 < v then 0 else v)) :=
  ⟨C8_reset_if_positive [⟨"1-2", 5⟩] 1 2, C8_reset_if_positive [⟨"1-2", 0⟩] 1 2⟩

/-! ## Item catalog (claim C9) -/

structure GachaItem where
  guild_id : Nat
  name : String
  description : String
  amount : Int
  image : Option String
  deriving DecidableEq, Repr

inductive GachaItemError where
  | DuplicateName
  | InvalidAmount
  deriving DecidableEq, Repr

/-- `GachaManagement.add_gacha_item_modal` (src/exts/gacha_management.py:401):
first a `count` query rejects a name already present in the guild with the
duplicate-name failure, then the amount is validated (anything below the -1
unlimited sentinel is invalid), then the item row is created.  The returned
table is unchanged whenever a failure is reported. -/
def add_gacha_item (db : List GachaItem) (guild : Nat) (name description : String)
    (amount : Int) (image : Option String) : List GachaItem × Option GachaItemError :=
  if 0 < (db.filter (fun i => i.guild_id == guild && i.name == name)).length then
    (db, some .DuplicateName)
  else if amount < -1 then
    (db, some .InvalidAmount)
  else
    (db ++ [{ guild_id := guild, name := name, description := description,
              amount := amount, image := image }], none)

theorem gachaDup_iff (db : List GachaItem) (guild : Nat) (name : String) :
    (0 < (db.filter (fun i => i.guild_id == guild && i.name == name)).length) ↔
      ∃ i ∈ db, i.guild_id = guild ∧ i.name = name := by
  rw [List.length_pos_iff_exists_mem]
  constructor
  · rintro ⟨i, hi⟩
    have hm := List.mem_filter.mp hi
    refine ⟨i, hm.1, ?_⟩
    have := hm.2
    simp only [Bool.and_eq_true, beq_iff_eq] at this
    exact this
  · rintro ⟨i, hi, h1, h2⟩
    exact ⟨i, List.mem_filter.mpr ⟨hi, by simp [h1, h2]⟩⟩

theorem add_gacha_item_success (db : List GachaItem) (guild : Nat)
    (name description : String) (amount : Int) (image : Option String)
    (h1 : ¬ ∃ i ∈ db, i.guild_id = guild ∧ i.name = name) (ha : ¬ amount < -1) :
    (add_gacha_item db guild name description amount image).2 = none
    ∧ ∀ i ∈ (add_gacha_item db guild name description amount image).1,
        i ∈ db ∨ i.guild_id = guild := by
  have hd : ¬ 0 < (db.filter (fun i => i.guild_id == guild && i.name == name)).length :=
    fun hx => h1 ((gachaDup_iff db guild name).mp hx)
  rw [add_gacha_item, if_neg hd, if_neg ha]
  refine ⟨rfl, ?_⟩
  intro i hi
  rcases List.mem_append.mp hi with hin | hone
  · exact Or.inl hin
  · right
    rcases List.mem_singleton.mp hone with rfl
    rfl

/-- C9: item creation reports the duplicate-name failure exactly when an
item of that name already exists in the same community, the table is
unchanged on any failure, and the same name can be created in two different
communities one after the other. -/
theorem C9_create_item (db : List GachaItem) (guild guild2 : Nat)
    (name description description2 : String) (amount amount2 : Int)
    (image image2 : Option String) :
    ((add_gacha_item db guild name description amount image).2 = some .DuplicateName ↔
      ∃ i ∈ db, i.guild_id = guild ∧ i.name = name)
    ∧ (∀ e, (add_gacha_item db guild name description amount image).2 = some e →
        (add_gacha_item db guild name description amount image).1 = db)
    ∧ (guild ≠ guild2 →
        (¬ ∃ i ∈ db, i.guild_id = guild ∧ i.name = name) →
        (¬ ∃ i ∈ db, i.guild_id = guild2 ∧ i.name = name) →
        ¬ amount < -1 → ¬ amount2 < -1 →
        (add_gacha_item db guild name description amount image).2 = none
        ∧ (add_gacha_item
            (add_gacha_item db guild name description amount image).1
            guild2 name description2 amount2 image2).2 = none) := by
  refine ⟨?_, ?_, ?_⟩
  · rw [add_gacha_item]
    by_cases hd : 0 < (db.filter (fun i => i.guild_id == guild && i.name == name)).length
    · rw [if_pos hd]
      simpa using (gachaDup_iff db guild name).mp hd
    · rw [if_neg hd]
      have hnot : ¬ ∃ i ∈ db, i.guild_id = guild ∧ i.name = name :=
        fun hx => hd ((gachaDup_iff db guild name).mpr hx)
      by_cases ha : amount < -1
      · rw [if_pos ha]
        simpa using hnot
      · rw [if_neg ha]
        simpa using hnot
  · intro e
    rw [add_gacha_item]
    by_cases hd : 0 < (db.filter (fun i => i.guild_id == guild && i.name == name)).length
    · rw [if_pos hd]
      intro _
      rfl
    · rw [if_neg hd]
      by_cases ha : amount < -1
      · rw [if_pos ha]
        intro _
        rfl
      · rw [if_neg ha]
        intro hcon
        exact absurd hcon (by simp)
  · intro hg h1 h2 ha ha2
    obtain ⟨hok, hmem⟩ := add_gacha_item_success db guild name description amount image h1 ha
    refine ⟨hok, ?_⟩
    have h2b : ¬ ∃ i ∈ (add_gacha_item db guild name description amount image).1,
        i.guild_id = guild2 ∧ i.name = name := by
      rintro ⟨i, hi, hig, hin⟩
      rcases hmem i hi with hold | hnew
      · exact h2 ⟨i, hold, hig, hin⟩
      · exact hg (hnew ▸ hig)
    exact (add_gacha_item_success _ guild2 name description2 amount2 image2 h2b ha2).1

/-- C9 (witness): creating "Badge" again in community 1 fails with the
duplicate-name error leaving the table unchanged, while community 2 can
still create a "Badge" of its own. -/
theorem C9_witness :
    (((add_gacha_item [⟨1, "Badge", "d", -1, none⟩] 1 "Badge" "e" 3 none).2 =
        some .DuplicateName ↔
      ∃ i ∈ [(⟨1, "Badge", "d", -1, none⟩ : GachaItem)], i.guild_id = 1 ∧ i.name = "Badge")
     ∧ (∀ e, (add_gacha_item [⟨1, "Badge", "d", -1, none⟩] 1 "Badge" "e" 3 none).2 = some e →
         (add_gacha_item [⟨1, "Badge", "d", -1, none⟩] 1 "Badge" "e" 3 none).1 =
           [⟨1, "Badge", "d", -1, none⟩])
     ∧ ((1 : Nat) ≠ 2 →
         (¬ ∃ i ∈ [(⟨1, "Badge", "d", -1, none⟩ : GachaItem)],
            i.guild_id = 1 ∧ i.name = "Badge") →
         (¬ ∃ i ∈ [(⟨1, "Badge", "d", -1, none⟩ : GachaItem)],
            i.guild_id = 2 ∧ i.name = "Badge") →
         ¬ (3 : Int) < -1 → ¬ (4 : Int) < -1 →
         (add_gacha_item [⟨1, "Badge", "d", -1, none⟩] 1 "Badge" "e" 3 none).2 = none
         ∧ (add_gacha_item
             (add_gacha_item [⟨1, "Badge", "d", -1, none⟩] 1 "Badge" "e" 3 none).1
             2 "Badge" "f" 4 none).2 = none))
    ∧ (add_gacha_item [⟨1, "Badge", "d", -1, none⟩] 1 "Badge" "e" 3 none).2 =
        some GachaItemError.DuplicateName :=
  ⟨C9_create_item [⟨1, "Badge", "d", -1, none⟩] 1 2 "Badge" "e" "f" 3 4 none none,
   by decide⟩

/-! ## In-memory message-discovery guild set (claim C10)

`bot.msg_enabled_bullets_guilds` (src/main.py:243) is modelled as a list of
guild ids together with the configuration tables; the operations below are
the three code paths that write it. -/

structure BotState where
  db : ConfigDB
  msgEnabled : List Nat
  deriving DecidableEq, Repr

/-- Python `set.add`. -/
def insertGuild (g : Nat) (s : List Nat) : List Nat :=
  if g ∈ s then s else g :: s

/-- Python `set.discard`. -/
def discardGuild (g : Nat) (s : List Nat) : List Nat :=
  s.filter (fun x => x ≠ g)

/-- `GetMethodsMixin.get_or_create` for `BulletConfig`
(src/common/models.py:158): fetches the guild's row, creating the default
one when absent. -/
def BulletConfig.get_or_create (db : ConfigDB) (g : Nat) : ConfigDB × BulletConfigRow :=
  match findBullets db g with
  | some r => (db, r)
  | none => ({ db with bullets := defaultBulletRow g :: db.bullets }, defaultBulletRow g)

/-- `BulletConfig.save` (src/common/models.py:194): full-row update keyed by
the guild id. -/
def saveBulletRow (db : ConfigDB) (r : BulletConfigRow) : ConfigDB :=
  { db with bullets := db.bullets.map (fun x => if x.guild_id == r.guild_id then r else x) }

/-- `BulletConfigCMDs.set_investigation_mode` (src/exts/bullet_config.py:168):
stores the new mode, then discards the guild for command-only mode and adds
it when message discovery is on and bullets are enabled. -/
def set_investigation_mode (s : BotState) (g : Nat) (mode : InvestigationType) : BotState :=
  let fetched := BulletConfig.get_or_create s.db g
  let r2 := { fetched.2 with investigation_type := mode }
  let db2 := saveBulletRow fetched.1 r2
  let enabled2 :=
    if mode = .COMMAND_ONLY then discardGuild g s.msgEnabled
    else if r2.bullets_enabled then insertGuild g s.msgEnabled
    else s.msgEnabled
  { db := db2, msgEnabled := enabled2 }

inductive CmdError where
  | CheckFailure
  | AttrCrash
  deriving DecidableEq, Repr

/-- `BulletConfigCMDs.toggle_bullets` (src/exts/bullet_config.py:363):
fetches the config with bullets included (which, through
`_fill_in_include`, may create the missing row yet still hand back an
aggregate whose bullets field is unloaded - reading it then crashes), runs
`enable_check` when enabling, stores the toggle and updates the guild set
unless the stored mode is command-only. -/
def toggle_bullets (s : BotState) (g : Nat) (toggle : Bool) : BotState × Option CmdError :=
  let fetched := GuildConfig.get_or_create s.db g ⟨false, true, false⟩
  match fetched.2.bullets with
  | none => ({ db := fetched.1, msgEnabled := s.msgEnabled }, some .AttrCrash)
  | some bc =>
    if !bc.bullets_enabled && toggle
        && (fetched.2.root.player_role.isNone || bc.bullet_chan_id.isNone) then
      ({ db := fetched.1, msgEnabled := s.msgEnabled }, some .CheckFailure)
    else
      let db2 := saveBulletRow fetched.1 { bc with bullets_enabled := toggle }
      let enabled2 :=
        if bc.investigation_type = .COMMAND_ONLY then s.msgEnabled
        else if toggle then insertGuild g s.msgEnabled
        else discardGuild g s.msgEnabled
      ({ db := db2, msgEnabled := enabled2 }, none)

/-- The startup population (src/main.py:258): every guild whose BulletConfig
has bullets enabled and a mode other than command-only. -/
def startupEnabled (db : ConfigDB) : List Nat :=
  (db.bullets.filter (fun r =>
    r.bullets_enabled && !(r.investigation_type = .COMMAND_ONLY : Bool))).map
    (fun r => r.guild_id)

/-- Invariant of claim C10 on one guild: its stored BulletConfig row exists,
has bullets enabled and is not command-only. -/
def guildOk (db : ConfigDB) (g : Nat) : Bool :=
  match findBullets db g with
  | some r => r.bullets_enabled && !(r.investigation_type = .COMMAND_ONLY : Bool)
  | none => false

def MsgInv (s : BotState) : Prop :=
  ∀ g ∈ s.msgEnabled, guildOk s.db g = true

theorem mem_insertGuild (g g2 : Nat) (s : List Nat) :
    g2 ∈ insertGuild g s ↔ g2 = g ∨ g2 ∈ s := by
  rw [insertGuild]
  by_cases hg : g ∈ s
  · rw [if_pos hg]
    constructor
    · exact Or.inr
    · rintro (rfl | hm)
      · exact hg
      · exact hm
  · rw [if_neg hg]
    exact List.mem_cons

theorem mem_discardGuild (g g2 : Nat) (s : List Nat) :
    g2 ∈ discardGuild g s ↔ g2 ∈ s ∧ g2 ≠ g := by
  rw [discardGuild]
  rw [List.mem_filter]
  simp

theorem findBullets_mem (db : ConfigDB) (g : Nat) (r : BulletConfigRow)
    (h : findBullets db g = some r) : r ∈ db.bullets ∧ r.guild_id = g := by
  refine ⟨List.mem_of_find?_eq_some h, ?_⟩
  have := List.find?_some h
  simpa using this

theorem findRoot_guild (db : ConfigDB) (g : Nat) (root : GuildConfigRow)
    (h : findRoot db g = some root) : root.guild_id = g := by
  have := List.find?_some h
  simpa using this

theorem find?_save_list (l : List BulletConfigRow) (r : BulletConfigRow) (g2 : Nat) :
    (l.map (fun x => if x.guild_id == r.guild_id then r else x)).find?
        (fun x => x.guild_id == g2) =
      if g2 = r.guild_id then
        (l.find? (fun x => x.guild_id == r.guild_id)).map (fun _ => r)
      else l.find? (fun x => x.guild_id == g2) := by
  induction l with
  | nil =>
    by_cases hg : g2 = r.guild_id <;> simp [hg]
  | cons a l ih =>
    by_cases ha : a.guild_id = r.guild_id
    · rw [List.map_cons, show (if a.guild_id == r.guild_id then r else a) = r from by
        simp [ha]]
      by_cases hg : g2 = r.guild_id
      · rw [if_pos hg]
        rw [List.find?_cons_of_pos _ (by simp [hg]),
          List.find?_cons_of_pos _ (by simp [ha])]
        rfl
      · rw [if_neg hg]
        rw [List.find?_cons_of_neg _ (by simp; exact fun hx => hg hx.symm),
          List.find?_cons_of_neg _ (by simp [ha]; exact fun hx => hg hx.symm)]
        have := ih
        rw [if_neg hg] at this
        exact this
    · rw [List.map_cons, show (if a.guild_id == r.guild_id then r else a) = a from by
        simp [ha]]
      by_cases hg : g2 = r.guild_id
      · rw [if_pos hg]
        rw [List.find?_cons_of_neg _ (by simp [hg]; exact fun hx => ha hx),
          List.find?_cons_of_neg _ (by simp [ha])]
        have := ih
        rw [if_pos hg] at this
        exact this
      · rw [if_neg hg]
        by_cases hag : a.guild_id = g2
        · rw [List.find?_cons_of_pos _ (by simp [hag]),
            List.find?_cons_of_pos _ (by simp [hag])]
        · rw [List.find?_cons_of_neg _ (by simp [hag]),
            List.find?_cons_of_neg _ (by simp [hag])]
          have := ih
          rw [if_neg hg] at this
          exact this

theorem findBullets_save (db : ConfigDB) (r : BulletConfigRow) (g2 : Nat) :
    findBullets (saveBulletRow db r) g2 =
      if g2 = r.guild_id then
        (findBullets db r.guild_id).map (fun _ => r)
      else findBullets db g2 := by
  rw [findBullets, saveBulletRow]
  exact find?_save_list db.bullets r g2

theorem findBullets_cons_default (db : ConfigDB) (g g2 : Nat) :
    findBullets { db with bullets := defaultBulletRow g :: db.bullets } g2 =
      if g = g2 then some (defaultBulletRow g) else findBullets db g2 := by
  rw [findBullets]
  by_cases hg : g = g2
  · rw [if_pos hg]
    exact List.find?_cons_of_pos _ (by simp [defaultBulletRow, hg])
  · rw [if_neg hg]
    rw [show ({ db with bullets := defaultBulletRow g :: db.bullets } : ConfigDB).bullets =
      defaultBulletRow g :: db.bullets from rfl]
    rw [List.find?_cons_of_neg _ (by simp [defaultBulletRow, hg])]
    rfl

theorem fillInInclude_bullets_only (db : ConfigDB) (agg : GuildConfigAgg) :
    fillInInclude db agg ⟨false, true, false⟩ =
      (if agg.bullets.isNone then
        { db with bullets := defaultBulletRow agg.root.guild_id :: db.bullets }
       else db, agg) := by
  rw [fillInInclude]
  rw [if_neg (by decide)]
  by_cases hb : agg.bullets.isNone
  · simp [hb]
  · simp [hb]

theorem guildOk_ext (db db2 : ConfigDB) (g2 : Nat)
    (h : findBullets db g2 = findBullets db2 g2) : guildOk db g2 = guildOk db2 g2 := by
  rw [guildOk, guildOk, h]

theorem findBullets_cons_row (db : ConfigDB) (row : BulletConfigRow) (g2 : Nat) :
    findBullets { db with bullets := row :: db.bullets } g2 =
      if row.guild_id = g2 then some row else findBullets db g2 := by
  rw [findBullets, findBullets]
  show List.find? _ (row :: db.bullets) = _
  by_cases hr : row.guild_id = g2
  · rw [if_pos hr, List.find?_cons_of_pos _ (by simp [hr])]
  · rw [if_neg hr, List.find?_cons_of_neg _ (by simp [hr])]

theorem msgInv_set_mode (s : BotState) (g : Nat) (mode : InvestigationType)
    (h : MsgInv s) : MsgInv (set_investigation_mode s g mode) := by
  cases hf : findBullets s.db g with
  | some r0 =>
    have hg0 : r0.guild_id = g := (findBullets_mem s.db g r0 hf).2
    have hfetch : BulletConfig.get_or_create s.db g = (s.db, r0) := by
      rw [BulletConfig.get_or_create, hf]
    intro g2 hg2
    simp only [set_investigation_mode, hfetch] at hg2 ⊢
    rw [guildOk, findBullets_save]
    by_cases hgg : g2 = g
    · subst hgg
      rw [if_pos (by simpa using hg0.symm)]
      rw [hg0, hf]
      cases mode with
      | COMMAND_ONLY =>
        rw [if_pos rfl] at hg2
        exact absurd ((mem_discardGuild g2 g2 s.msgEnabled).mp hg2).2 (by simp)
      | DEFAULT =>
        rw [if_neg (by simp)] at hg2
        by_cases he : r0.bullets_enabled
        · simp [he]
        · rw [show ({ r0 with investigation_type := InvestigationType.DEFAULT
            } : BulletConfigRow).bullets_enabled = r0.bullets_enabled from rfl] at hg2
          rw [if_neg he] at hg2
          have := h g2 hg2
          rw [guildOk, hf] at this
          simp [he] at this
    · rw [if_neg (by simpa [hg0] using hgg)]
      have hmem : g2 ∈ s.msgEnabled := by
        cases mode with
        | COMMAND_ONLY =>
          rw [if_pos rfl] at hg2
          exact ((mem_discardGuild g g2 s.msgEnabled).mp hg2).1
        | DEFAULT =>
          rw [if_neg (by simp)] at hg2
          by_cases he : ({ r0 with investigation_type := InvestigationType.DEFAULT
              } : BulletConfigRow).bullets_enabled
          · rw [if_pos he] at hg2
            rcases (mem_insertGuild g g2 s.msgEnabled).mp hg2 with rfl | hm
            · exact absurd rfl hgg
            · exact hm
          · rw [if_neg he] at hg2
            exact hg2
      have := h g2 hmem
      rw [guildOk] at this
      exact this
  | none =>
    have hfetch : BulletConfig.get_or_create s.db g =
        ({ s.db with bullets := defaultBulletRow g :: s.db.bullets }, defaultBulletRow g) := by
      rw [BulletConfig.get_or_create, hf]
    intro g2 hg2
    simp only [set_investigation_mode, hfetch] at hg2 ⊢
    rw [guildOk, findBullets_save]
    by_cases hgg : g2 = g
    · cases mode with
      | COMMAND_ONLY =>
        rw [if_pos rfl] at hg2
        exact absurd ((mem_discardGuild g g2 s.msgEnabled).mp hg2).2 (by simpa using hgg)
      | DEFAULT =>
        rw [if_neg (by simp)] at hg2
        rw [if_neg (by simp [defaultBulletRow])] at hg2
        have hcontra := h g2 hg2
        rw [guildOk, hgg, hf] at hcontra
        simp at hcontra
    · rw [if_neg (by simp [defaultBulletRow, hgg])]
      rw [findBullets_cons_row]
      rw [if_neg (by simp [defaultBulletRow]; exact fun hx => hgg hx.symm)]
      have hmem : g2 ∈ s.msgEnabled := by
        cases mode with
        | COMMAND_ONLY =>
          rw [if_pos rfl] at hg2
          exact ((mem_discardGuild g g2 s.msgEnabled).mp hg2).1
        | DEFAULT =>
          rw [if_neg (by simp)] at hg2
          rw [if_neg (by simp [defaultBulletRow])] at hg2
          exact hg2
      have hok := h g2 hmem
      rw [guildOk] at hok
      exact hok

theorem findBullets_cons_gen (db : ConfigDB) (row : BulletConfigRow) (g2 : Nat)
    (l : List BulletConfigRow) (hdb : db.bullets = row :: l) (db2 : ConfigDB)
    (h2 : db2.bullets = l) :
    findBullets db g2 = if row.guild_id = g2 then some row else findBullets db2 g2 := by
  rw [findBullets, hdb, findBullets, h2]
  by_cases hr : row.guild_id = g2
  · rw [if_pos hr, List.find?_cons_of_pos _ (by simp [hr])]
  · rw [if_neg hr, List.find?_cons_of_neg _ (by simp [hr])]

theorem findRoot_none_no_row (db : ConfigDB) (g : Nat) (hroot : findRoot db g = none)
    (hfk : ∀ r ∈ db.bullets, ∃ root ∈ db.roots, root.guild_id = r.guild_id) :
    findBullets db g = none := by
  cases hb : findBullets db g with
  | none => rfl
  | some r =>
    obtain ⟨hmem, hgid⟩ := findBullets_mem db g r hb
    obtain ⟨root, hrmem, hrg⟩ := hfk r hmem
    rw [findRoot, List.find?_eq_none] at hroot
    exact absurd (by simp [hrg, hgid]) (hroot root hrmem)

theorem msgInv_toggle (s : BotState) (g : Nat) (toggle : Bool)
    (h : MsgInv s)
    (hfk : ∀ r ∈ s.db.bullets, ∃ root ∈ s.db.roots, root.guild_id = r.guild_id) :
    MsgInv (toggle_bullets s g toggle).1 := by
  cases hroot : findRoot s.db g with
  | some root =>
    have hg0 : root.guild_id = g := findRoot_guild _ _ _ hroot
    cases hbc : findBullets s.db g with
    | some bc =>
      have hbg : bc.guild_id = g := (findBullets_mem _ _ _ hbc).2
      have hfetch : GuildConfig.get_or_create s.db g ⟨false, true, false⟩ =
          (s.db, { root := root, names := none, bullets := some bc, gacha := none }) := by
        simp [GuildConfig.get_or_create, hroot, fetchAgg, hg0, hbc, fillInInclude_bullets_only]
      simp only [toggle_bullets, hfetch]
      by_cases hchk : (!bc.bullets_enabled && toggle
          && (root.player_role.isNone || bc.bullet_chan_id.isNone)) = true
      · rw [if_pos hchk]
        exact h
      · rw [if_neg hchk]
        intro g2 hg2
        simp only at hg2 ⊢
        rw [guildOk, findBullets_save]
        by_cases hgg : g2 = g
        · rw [if_pos (by simp [hbg, hgg])]
          by_cases htype : bc.investigation_type = InvestigationType.COMMAND_ONLY
          · rw [if_pos htype] at hg2
            have hcontra := h g2 hg2
            rw [guildOk, hgg, hbc] at hcontra
            simp [htype] at hcontra
          · rw [if_neg htype] at hg2
            cases toggle with
            | true => simp [hbg, hbc, htype]
            | false =>
              rw [if_neg (by simp)] at hg2
              exact absurd ((mem_discardGuild g g2 s.msgEnabled).mp hg2).2 (by simpa using hgg)
        · rw [if_neg (by simp [hbg, hgg])]
          have hmem : g2 ∈ s.msgEnabled := by
            by_cases htype : bc.investigation_type = InvestigationType.COMMAND_ONLY
            · rw [if_pos htype] at hg2
              exact hg2
            · rw [if_neg htype] at hg2
              cases toggle with
              | true =>
                rw [if_pos rfl] at hg2
                rcases (mem_insertGuild g g2 s.msgEnabled).mp hg2 with rfl | hm
                · exact absurd rfl hgg
                · exact hm
              | false =>
                rw [if_neg (by simp)] at hg2
                exact ((mem_discardGuild g g2 s.msgEnabled).mp hg2).1
          have hok := h g2 hmem
          rw [guildOk] at hok
          exact hok
    | none =>
      have hfetch : GuildConfig.get_or_create s.db g ⟨false, true, false⟩ =
          ({ s.db with bullets := defaultBulletRow g :: s.db.bullets },
           { root := root, names := none, bullets := none, gacha := none }) := by
        simp [GuildConfig.get_or_create, hroot, fetchAgg, hg0, hbc, fillInInclude_bullets_only]
      simp only [toggle_bullets, hfetch]
      intro g2 hg2
      simp only at hg2 ⊢
      rw [guildOk, findBullets_cons_row]
      by_cases hgg : g = g2
      · rw [if_pos (by simp [defaultBulletRow, hgg])]
        have hcontra := h g2 hg2
        rw [guildOk, ← hgg, hbc] at hcontra
        simp at hcontra
      · rw [if_neg (by simp [defaultBulletRow, hgg])]
        have hok := h g2 hg2
        rw [guildOk] at hok
        exact hok
  | none =>
    have hnb : findBullets s.db g = none := findRoot_none_no_row s.db g hroot hfk
    have hfetch : GuildConfig.get_or_create s.db g ⟨false, true, false⟩ =
        ({ s.db with roots := ⟨g, none⟩ :: s.db.roots, bullets := defaultBulletRow g :: s.db.bullets },
         { root := ⟨g, none⟩, names := none, bullets := none, gacha := none }) := by
      simp [GuildConfig.get_or_create, hroot, fillInInclude_bullets_only]
    simp only [toggle_bullets, hfetch]
    intro g2 hg2
    simp only at hg2 ⊢
    rw [guildOk,
      findBullets_cons_gen _ (defaultBulletRow g) g2 s.db.bullets rfl s.db rfl]
    by_cases hgg : g = g2
    · rw [if_pos (by simp [defaultBulletRow, hgg])]
      have hcontra := h g2 hg2
      rw [guildOk, ← hgg, hnb] at hcontra
      simp at hcontra
    · rw [if_neg (by simp [defaultBulletRow, hgg])]
      have hok := h g2 hg2
      rw [guildOk] at hok
      exact hok

theorem msgInv_startup (db : ConfigDB)
    (hnodup : (db.bullets.map (fun r => r.guild_id)).Nodup) :
    MsgInv ⟨db, startupEnabled db⟩ := by
  intro g2 hg2
  rw [show (⟨db, startupEnabled db⟩ : BotState).msgEnabled = startupEnabled db from rfl,
    startupEnabled] at hg2
  obtain ⟨r, hrf, hrg⟩ := List.mem_map.mp hg2
  have hrmem := (List.mem_filter.mp hrf).1
  have hpred := (List.mem_filter.mp hrf).2
  show guildOk db g2 = true
  rw [guildOk]
  cases hfind : findBullets db g2 with
  | none =>
    rw [findBullets, List.find?_eq_none] at hfind
    exact absurd (by simp [hrg]) (hfind r hrmem)
  | some r0 =>
    obtain ⟨hr0mem, hr0g⟩ := findBullets_mem db g2 r0 hfind
    have heq : r0 = r :=
      List.inj_on_of_nodup_map hnodup hr0mem hrmem (by rw [hr0g, hrg])
    subst heq
    simpa using hpred

/-- C10: on states where every listed guild's stored BulletConfig is enabled
and not command-only, changing the investigation mode preserves that
invariant; toggling bullets preserves it on databases whose BulletConfig
rows all have a root configuration row (the foreign-key shape of the
storage); and the startup population establishes it on any table whose
guild ids are unique (the storage's key constraint). -/
theorem C10_msg_enabled_invariant (s : BotState) (g : Nat) (mode : InvestigationType)
    (toggle : Bool) (db : ConfigDB) :
    (MsgInv s → MsgInv (set_investigation_mode s g mode))
    ∧ (MsgInv s →
        (∀ r ∈ s.db.bullets, ∃ root ∈ s.db.roots, root.guild_id = r.guild_id) →
        MsgInv (toggle_bullets s g toggle).1)
    ∧ ((db.bullets.map (fun r => r.guild_id)).Nodup → MsgInv ⟨db, startupEnabled db⟩) :=
  ⟨fun h => msgInv_set_mode s g mode h,
   fun h hfk => msgInv_toggle s g toggle h hfk,
   fun hnodup => msgInv_startup db hnodup⟩

/-- A concrete configuration database for the C10 witness: guild 5 has a
root row with a player role and an enabled default-mode BulletConfig. -/
def c10Db : ConfigDB :=
  { roots := [{ guild_id := 5, player_role := some 1 }],
    names := [],
    bullets := [{ guild_id := 5, bullets_enabled := true,
                  investigation_type := .DEFAULT, bullet_chan_id := some 2,
                  best_bullet_finder_role := none }],
    gacha := [] }

def c10State : BotState :=
  { db := c10Db, msgEnabled := [5] }

/-- C10 (witness): the three preservation statements evaluated on the
concrete state. -/
theorem C10_witness :
    MsgInv (set_investigation_mode c10State 5 InvestigationType.DEFAULT)
    ∧ MsgInv (toggle_bullets c10State 5 true).1
    ∧ MsgInv ⟨c10Db, startupEnabled c10Db⟩ :=
  ⟨(C10_msg_enabled_invariant c10State 5 .DEFAULT true c10Db).1
     (by unfold MsgInv; decide),
   (C10_msg_enabled_invariant c10State 5 .DEFAULT true c10Db).2.1
     (by unfold MsgInv; decide) (by decide),
   (C10_msg_enabled_invariant c10State 5 .DEFAULT true c10Db).2.2 (by decide)⟩
